import Mathlib

/-!
Verification development for the pizza-order elicitation agent.

The agent's core (src/agent/state.py, src/agent/nodes.py, src/agent/graph.py)
is shallowly embedded below.  Python strings are modelled as `List Char`
(`Str`), machine-level truthiness (`not x` on `None`/`''`/`[]`) is made
explicit, Python exceptions (the `assert` in `order_confirmation_node`,
pydantic validation errors, LLM client failures) are modelled with `Except`,
and the external LLM collaborator is a parameter `llm : Str → Except Str Str`
(`.error` = the call raised).
-/

namespace PizzaSpec

/-- Python strings are modelled as lists of characters. -/
abbrev Str := List Char

/-- Characters removed by Python's `str.strip()` (ASCII whitespace). -/
def isPySpace (c : Char) : Bool :=
  c == ' ' || c == '\t' || c == '\n' || c == '\r' || c == '\x0B' || c == '\x0C'

/-- Left part of Python `str.strip()`. -/
def lstrip (s : Str) : Str := s.dropWhile isPySpace

/-- Right part of Python `str.strip()`. -/
def rstrip (s : Str) : Str := (s.reverse.dropWhile isPySpace).reverse

/-- Python `str.strip()`. -/
def pyStrip (s : Str) : Str := rstrip (lstrip s)

/-- Python `str.startswith` on the model strings. -/
def pyStartswith : Str → Str → Bool
  | [], _ => true
  | _ :: _, [] => false
  | a :: p, b :: s => a == b && pyStartswith p s

/-- Python `str.endswith` on the model strings. -/
def pyEndswith (p s : Str) : Bool := pyStartswith p.reverse s.reverse

/-- Python substring containment (`needle in hay`). -/
def strContains : Str → Str → Bool
  | [], needle => pyStartswith needle []
  | a :: t, needle => pyStartswith needle (a :: t) || strContains t needle

/-- Transcript entries (langchain `HumanMessage` / `AIMessage`). -/
inductive Message where
  | human (content : Str)
  | ai (content : Str)
deriving DecidableEq, Repr

/-- The `Pizza` pydantic model from src/agent/state.py: every field is
`Optional` and defaults to `None`.  The enum string values (`PizzaCrust`,
`PizzaTopping`, `PizzaSize`) are carried as strings. -/
structure Pizza where
  crust : Option Str := none
  toppings : Option (List Str) := none
  size : Option Str := none
deriving DecidableEq, Repr

/-- The `PizzaState` pydantic model from src/agent/state.py. -/
structure PizzaState where
  pizzas : List Pizza := []
  messages : List Message := []
  rejected : List Str := []
  ambiguous : List (Int × Str) := []
  questions : List Str := []
  errors : List Str := []
deriving DecidableEq, Repr

/-- The default-topping injection performed on each pizza inside
`create_initial_state` (src/agent/state.py lines 39-44): `'cheese'` becomes
the sole topping when `toppings` is `None`, and is appended when absent. -/
def inject_default_topping (p : Pizza) : Pizza :=
  match p.toppings with
  | none => { p with toppings := some [("cheese".toList)] }
  | some ts =>
    if ("cheese".toList) ∈ ts then p
    else { p with toppings := some (ts ++ [("cheese".toList)]) }

/-- `create_initial_state` from src/agent/state.py.  The Python signature
takes `Optional` collection arguments and replaces falsy ones by `[]`
(`rejected or []`); since `None` and `[]` produce the same result they are
modelled as plain lists.  The `isinstance(pizza, dict)` branch (raw JSON
dicts arriving from the extractor) is modelled at the caller boundary in
`extract_pizzas_node` by `pizzasOfJson`, so here the input is the typed
pizza list. -/
def create_initial_state (pizzas : List Pizza) (rejected : List Str)
    (ambiguous : List (Int × Str)) (errors : List Str) : PizzaState :=
  { pizzas := pizzas.map inject_default_topping
    messages := []
    rejected := rejected
    ambiguous := ambiguous
    questions := []
    errors := errors }

/-- The 20 English ordinal words from `ordinal` in src/agent/nodes.py. -/
def ordinalWords : List Str :=
  [("first".toList), ("second".toList), ("third".toList), ("fourth".toList),
   ("fifth".toList), ("sixth".toList), ("seventh".toList), ("eighth".toList),
   ("ninth".toList), ("tenth".toList), ("eleventh".toList), ("twelfth".toList),
   ("thirteenth".toList), ("fourteenth".toList), ("fifteenth".toList),
   ("sixteenth".toList), ("seventeenth".toList), ("eighteenth".toList),
   ("nineteenth".toList), ("twentieth".toList)]

/-- `ordinal` from src/agent/nodes.py lines 195-203.  The index is an
unbounded Python `int`, hence `Int` here; the fallback renders the number
followed by `"th"` (the f-string `f"-n-th"`). -/
def ordinal (n : Int) : Str :=
  if 1 ≤ n ∧ n ≤ 20 then ordinalWords.getD (n - 1).toNat []
  else (toString n).toList ++ ("th".toList)

/-- Python truthiness of an optional string field (`not pizza.crust` is true
for `None` and for the empty string). -/
def truthy_str (o : Option Str) : Bool :=
  match o with
  | none => false
  | some s => !s.isEmpty

/-- Python truthiness of an optional list field. -/
def truthy_list (o : Option (List Str)) : Bool :=
  match o with
  | none => false
  | some l => !l.isEmpty

/-- The `missing_fields` list built for one pizza inside
`compute_pizza_completeness` (order: crust, toppings, size). -/
def missing_fields (p : Pizza) : List Str :=
  (if truthy_str p.crust then [] else [("crust".toList)]) ++
  (if truthy_list p.toppings then [] else [("toppings".toList)]) ++
  (if truthy_str p.size then [] else [("size".toList)])

/-- A field value appearing in an `accepted_fields` dict: crust/size carry a
string, toppings carries a list of strings. -/
inductive FieldVal where
  | s (v : Str)
  | l (v : List Str)
deriving DecidableEq, Repr

/-- The `accepted_fields` dict built for one pizza inside
`compute_pizza_completeness`: the truthy fields with their values, in the
iteration order crust, toppings, size. -/
def accepted_fields (p : Pizza) : List (Str × FieldVal) :=
  (if truthy_str p.crust then [(("crust".toList), FieldVal.s (p.crust.getD []))] else []) ++
  (if truthy_list p.toppings then [(("toppings".toList), FieldVal.l (p.toppings.getD []))] else []) ++
  (if truthy_str p.size then [(("size".toList), FieldVal.s (p.size.getD []))] else [])

/-- The `ambiguous_fields` list for index `idx`: projection of the ambiguity
markers whose first component equals the pizza index. -/
def ambiguous_fields_for (amb : List (Int × Str)) (idx : Nat) : List Str :=
  (amb.filter (fun m => m.1 == (idx : Int))).map (fun m => m.2)

/-- One record of the `incomplete_pizzas` list returned by
`compute_pizza_completeness`. -/
structure IncompleteEntry where
  index : Str
  pizza : Pizza
  accepted : List (Str × FieldVal)
  missing : List Str
  ambiguousFields : List Str
deriving DecidableEq, Repr

/-- The per-index loop of `compute_pizza_completeness` (src/agent/nodes.py
lines 166-193), written as structural recursion carrying the running
`enumerate` index; appending to the two result lists in input order is
rendered as consing onto the recursive results. -/
def completeness_go (amb : List (Int × Str)) : Nat → List Pizza →
    List (Nat × Pizza) × List IncompleteEntry
  | _, [] => ([], [])
  | idx, p :: rest =>
    let res := completeness_go amb (idx + 1) rest
    if (missing_fields p).isEmpty && (ambiguous_fields_for amb idx).isEmpty then
      ((idx, p) :: res.1, res.2)
    else
      (res.1,
        { index := ordinal ((idx : Int) + 1)
          pizza := p
          accepted := accepted_fields p
          missing := missing_fields p
          ambiguousFields := ambiguous_fields_for amb idx } :: res.2)

/-- `compute_pizza_completeness` from src/agent/nodes.py lines 166-193. -/
def compute_pizza_completeness (state : PizzaState) :
    List (Nat × Pizza) × List IncompleteEntry :=
  completeness_go state.ambiguous 0 state.pizzas

/-- `ELICITATION_RESPONSE` node-name constant from src/agent/graph.py. -/
def ELICITATION_RESPONSE : Str := "elicitation_response".toList

/-- `ORDER_CONFIRMATION` node-name constant from src/agent/graph.py. -/
def ORDER_CONFIRMATION : Str := "order_confirmation".toList

/-- `pizza_branching` from src/agent/graph.py lines 33-38 (the Studio
variant in src/agent/studio_graph.py lines 52-58 computes the same decision
on the converted state). -/
def pizza_branching (state : PizzaState) : Str :=
  if !(compute_pizza_completeness state).2.isEmpty then ELICITATION_RESPONSE
  else ORDER_CONFIRMATION

/-- Python `x or '?'` on an optional string field (used for size/crust in
the confirmation line). -/
def py_or_str (o : Option Str) (d : Str) : Str :=
  match o with
  | none => d
  | some s => if s.isEmpty then d else s

/-- `order_confirmation_node` from src/agent/nodes.py lines 246-261.  The
Python `assert not incomplete_pizzas` is modelled as `Except.error` carrying
the assertion message; the success branch appends one `AIMessage` built by
purely deterministic formatting (no LLM call). -/
def order_confirmation_node (state : PizzaState) : Except Str PizzaState :=
  let res := compute_pizza_completeness state
  if !res.2.isEmpty then
    Except.error ("order_confirmation_node called with incomplete pizzas!".toList)
  else
    let pizza_descriptions := res.1.map (fun e =>
      ("Your ".toList) ++ ordinal ((e.1 : Int) + 1) ++ (" pizza: ".toList) ++
      py_or_str e.2.size ("?".toList) ++ (" ".toList) ++
      py_or_str e.2.crust ("?".toList) ++ (" crust with ".toList) ++
      List.intercalate (", ".toList) (e.2.toppings.getD []))
    let pizzas_str := List.intercalate ("\n".toList) pizza_descriptions
    let confirmation_message :=
      ("Your pizza order is complete!\n\nOrder summary:\n".toList) ++ pizzas_str ++
      ("\n\nThank you.".toList)
    Except.ok { state with messages := state.messages ++ [Message.ai confirmation_message] }

/-- Decoded JSON values (the result space of Python `json.loads`).  Python
floats are carried by their raw source text: no claim depends on float
values, only on the type name. -/
inductive Json where
  | null
  | bool (b : Bool)
  | int (n : Int)
  | float (raw : Str)
  | str (s : Str)
  | arr (xs : List Json)
  | obj (kvs : List (Str × Json))
deriving Repr

/-- Python `type(result).__name__` for a decoded JSON value. -/
def jsonTypeName : Json → Str
  | Json.null => "NoneType".toList
  | Json.bool _ => "bool".toList
  | Json.int _ => "int".toList
  | Json.float _ => "float".toList
  | Json.str _ => "str".toList
  | Json.arr _ => "list".toList
  | Json.obj _ => "dict".toList

/-- JSON grammar whitespace. -/
def isJsonWs (c : Char) : Bool :=
  c == ' ' || c == '\t' || c == '\n' || c == '\r'

/-- Skip JSON whitespace. -/
def skipWs (s : Str) : Str := s.dropWhile isJsonWs

/-- Digits to a natural number. -/
def digitsToNat (ds : Str) : Nat :=
  ds.foldl (fun acc c => acc * 10 + (c.toNat - '0'.toNat)) 0

/-- Number token of the JSON decoder model (integer, or simple decimal
fraction kept as raw text; exponents are not modelled — no claim depends on
them). -/
def parseNumber (s : Str) : Except Str (Json × Str) :=
  let sgn : Int := match s with | '-' :: _ => -1 | _ => 1
  let s1 := match s with | '-' :: t => t | _ => s
  let ds := s1.takeWhile Char.isDigit
  let r1 := s1.dropWhile Char.isDigit
  if ds.isEmpty then Except.error ("Expecting value".toList)
  else
    match r1 with
    | '.' :: t =>
      let fs := t.takeWhile Char.isDigit
      let r2 := t.dropWhile Char.isDigit
      if fs.isEmpty then Except.error ("Expecting value".toList)
      else Except.ok (Json.float ((if sgn < 0 then ['-'] else []) ++ ds ++ '.' :: fs), r2)
    | _ => Except.ok (Json.int (sgn * (digitsToNat ds : Int)), r1)

/-- String token of the JSON decoder model: characters up to the closing
quote, with the common escapes. -/
def jstringChars : Str → Str → Except Str (Str × Str)
  | [], _ => Except.error ("Unterminated string".toList)
  | '"' :: rest, acc => Except.ok (acc.reverse, rest)
  | '\\' :: c :: rest, acc =>
    if c == '"' then jstringChars rest ('"' :: acc)
    else if c == '\\' then jstringChars rest ('\\' :: acc)
    else if c == '/' then jstringChars rest ('/' :: acc)
    else if c == 'n' then jstringChars rest ('\n' :: acc)
    else if c == 't' then jstringChars rest ('\t' :: acc)
    else if c == 'r' then jstringChars rest ('\r' :: acc)
    else if c == 'b' then jstringChars rest ('\x08' :: acc)
    else if c == 'f' then jstringChars rest ('\x0C' :: acc)
    else Except.error ("Invalid escape".toList)
  | c :: rest, acc => jstringChars rest (c :: acc)

mutual

/-- Recursive-descent value parser of the JSON decoder model (fuel-indexed). -/
def parseValue : Nat → Str → Except Str (Json × Str)
  | 0, _ => Except.error ("Nesting too deep".toList)
  | fuel + 1, s =>
    match skipWs s with
    | [] => Except.error ("Expecting value".toList)
    | 'n' :: t =>
      if pyStartswith ("ull".toList) t then Except.ok (Json.null, t.drop 3)
      else Except.error ("Expecting value".toList)
    | 't' :: t =>
      if pyStartswith ("rue".toList) t then Except.ok (Json.bool true, t.drop 3)
      else Except.error ("Expecting value".toList)
    | 'f' :: t =>
      if pyStartswith ("alse".toList) t then Except.ok (Json.bool false, t.drop 4)
      else Except.error ("Expecting value".toList)
    | '"' :: t =>
      match jstringChars t [] with
      | Except.ok (cs, rest) => Except.ok (Json.str cs, rest)
      | Except.error e => Except.error e
    | '[' :: t =>
      (match skipWs t with
       | ']' :: r => Except.ok (Json.arr [], r)
       | _ => parseItems fuel t [])
    | '\x7b' :: t =>
      (match skipWs t with
       | '\x7d' :: r => Except.ok (Json.obj [], r)
       | _ => parseMembers fuel t [])
    | s' => parseNumber s'

/-- Array items of the JSON decoder model. -/
def parseItems : Nat → Str → List Json → Except Str (Json × Str)
  | 0, _, _ => Except.error ("Nesting too deep".toList)
  | fuel + 1, s, acc =>
    match parseValue fuel s with
    | Except.error e => Except.error e
    | Except.ok (v, rest) =>
      match skipWs rest with
      | ',' :: r2 => parseItems fuel r2 (v :: acc)
      | ']' :: r2 => Except.ok (Json.arr (v :: acc).reverse, r2)
      | _ => Except.error ("Expecting delimiter".toList)

/-- Object members of the JSON decoder model. -/
def parseMembers : Nat → Str → List (Str × Json) → Except Str (Json × Str)
  | 0, _, _ => Except.error ("Nesting too deep".toList)
  | fuel + 1, s, acc =>
    match skipWs s with
    | '"' :: t =>
      (match jstringChars t [] with
       | Except.error e => Except.error e
       | Except.ok (k, rest) =>
         match skipWs rest with
         | ':' :: r2 =>
           (match parseValue fuel r2 with
            | Except.error e => Except.error e
            | Except.ok (v, r3) =>
              match skipWs r3 with
              | ',' :: r4 => parseMembers fuel r4 ((k, v) :: acc)
              | '\x7d' :: r4 => Except.ok (Json.obj ((k, v) :: acc).reverse, r4)
              | _ => Except.error ("Expecting delimiter".toList))
         | _ => Except.error ("Expecting colon delimiter".toList))
    | _ => Except.error ("Expecting property name".toList)

end

/-- Model of the external stdlib collaborator `json.loads`: decodes one JSON
value and rejects trailing data.  Error message texts are abbreviated
relative to CPython (no line/column positions); no claim depends on the
message wording beyond the prefixes added by the caller. -/
def json_loads (s : Str) : Except Str Json :=
  match parseValue (s.length + 1) s with
  | Except.error e => Except.error e
  | Except.ok (v, rest) =>
    if (skipWs rest).isEmpty then Except.ok v else Except.error ("Extra data".toList)

/-- Python `dict.get(k, d)` on the model association list (duplicate keys:
the last occurrence wins, matching dict insertion semantics). -/
def dictGet (kvs : List (Str × Json)) (k : Str) (d : Json) : Json :=
  match (kvs.filter (fun kv => kv.1 == k)).getLast? with
  | some kv => kv.2
  | none => d

/-- One empty-string-to-None normalization step of
`parse_llm_pizza_response` for field `f`: an entry `(f, "")` becomes
`(f, null)` (the decoded dicts have unique keys, so the map equals the
Python in-place update). -/
def normField (f : Str) (kvs : List (Str × Json)) : List (Str × Json) :=
  kvs.map (fun kv =>
    if kv.1 == f then
      match kv.2 with
      | Json.str [] => (kv.1, Json.null)
      | _ => kv
    else kv)

/-- Effect of the normalization loop body on one element of the `pizzas`
list.  A dict gets its crust/size/toppings empty strings nulled; a Python
str or list element is only inspected by `in` (raising only when indexing
would follow); any other value raises `TypeError` at the membership test.
Error texts abbreviate the CPython messages. -/
def normalizeItem : Json → Sum Json Str
  | Json.obj kvs =>
    Sum.inl (Json.obj (normField ("toppings".toList)
      (normField ("size".toList) (normField ("crust".toList) kvs))))
  | Json.str s =>
    if strContains s ("crust".toList) then Sum.inr ("string indices must be integers".toList)
    else if strContains s ("size".toList) then Sum.inr ("string indices must be integers".toList)
    else if strContains s ("toppings".toList) then Sum.inr ("string indices must be integers".toList)
    else Sum.inl (Json.str s)
  | Json.arr ys =>
    if ys.any (fun y => match y with | Json.str s => s == "crust".toList | _ => false) then
      Sum.inr ("list indices must be integers".toList)
    else if ys.any (fun y => match y with | Json.str s => s == "size".toList | _ => false) then
      Sum.inr ("list indices must be integers".toList)
    else if ys.any (fun y => match y with | Json.str s => s == "toppings".toList | _ => false) then
      Sum.inr ("list indices must be integers".toList)
    else Sum.inl (Json.arr ys)
  | j => Sum.inr (jsonTypeName j ++ (" argument is not iterable".toList))

/-- The normalization loop over the `pizzas` list: elements are updated in
input order; the first raising element aborts the loop, keeping the already
processed prefix and the untouched remainder (in-place mutation). -/
def normalizeItems : List Json → List Json × Option Str
  | [] => ([], none)
  | x :: rest =>
    match normalizeItem x with
    | Sum.inl y =>
      let r := normalizeItems rest
      (y :: r.1, r.2)
    | Sum.inr e => (x :: rest, some e)

/-- Iterating a dict-valued `pizzas` yields its keys (strings); a key
containing a field name would be indexed and raise. -/
def scanObjKeys : List (Str × Json) → Option Str
  | [] => none
  | (k, _) :: rest =>
    if strContains k ("crust".toList) then some ("string indices must be integers".toList)
    else if strContains k ("size".toList) then some ("string indices must be integers".toList)
    else if strContains k ("toppings".toList) then some ("string indices must be integers".toList)
    else scanObjKeys rest

/-- The whole `for pizza in pizzas` normalization of
`parse_llm_pizza_response`, returning the (possibly partially) updated
value and the raised error, if any. -/
def normalizePizzas : Json → Json × Option Str
  | Json.arr xs =>
    let r := normalizeItems xs
    (Json.arr r.1, r.2)
  | Json.str s => (Json.str s, none)
  | Json.obj kvs => (Json.obj kvs, scanObjKeys kvs)
  | j => (j, some (jsonTypeName j ++ (" object is not iterable".toList)))

/-- The code-fence stripping prelude of `parse_llm_pizza_response`
(src/agent/nodes.py lines 106-113): strip, drop a leading json-tagged fence
marker, drop a leading bare fence marker, drop a trailing fence marker. -/
def stripFences (r : Str) : Str :=
  let r1 := pyStrip r
  let r2 := if pyStartswith ("```json".toList) r1 then pyStrip (r1.drop 7) else r1
  let r3 := if pyStartswith ("```".toList) r2 then pyStrip (r2.drop 3) else r2
  if pyEndswith ("```".toList) r3 then pyStrip (r3.take (r3.length - 3)) else r3

/-- `parse_llm_pizza_response` from src/agent/nodes.py lines 98-135,
parameterized over the JSON decoder collaborator.  Returns the tuple
`(pizzas, rejected, ambiguous, errors)`; every exception of the Python
`try` block is accounted for (decode failure, and the `TypeError` the
normalization loop can raise), so the function is total — it never
throws. -/
def parse_llm_pizza_response (loads : Str → Except Str Json) (response : Str) :
    Json × Json × Json × List Str :=
  let resp := stripFences response
  match loads resp with
  | Except.error e =>
    (Json.arr [], Json.arr [], Json.arr [],
      [("Failed to parse LLM response as JSON: ".toList) ++ e,
       ("Raw response: ".toList) ++ resp])
  | Except.ok result =>
    match result with
    | Json.obj kvs =>
      let normalized := kvs.map (fun kv => (pyStrip kv.1, kv.2))
      let pizzas := dictGet normalized ("pizzas".toList) (Json.arr [])
      let rejected := dictGet normalized ("rejected".toList) (Json.arr [])
      let ambiguous := dictGet normalized ("ambiguous".toList) (Json.arr [])
      let norm := normalizePizzas pizzas
      (match norm.2 with
       | none => (norm.1, rejected, ambiguous, [])
       | some e =>
         (norm.1, rejected, ambiguous,
           [("Failed to parse LLM response as JSON: ".toList) ++ e,
            ("Raw response: ".toList) ++ resp]))
    | _ =>
      (Json.arr [], Json.arr [], Json.arr [],
        [("LLM response JSON is not an object: ".toList) ++ jsonTypeName result,
         ("Raw response: ".toList) ++ resp])

/-- `PizzaCrust` enum values from src/agent/state.py. -/
def pizzaCrustVals : List Str := [("thin".toList), ("classic".toList), ("stuffed".toList)]

/-- `PizzaSize` enum values from src/agent/state.py. -/
def pizzaSizeVals : List Str :=
  [("small".toList), ("medium".toList), ("large".toList), ("extra_large".toList)]

/-- `PizzaTopping` enum values from src/agent/state.py. -/
def pizzaToppingVals : List Str :=
  [("pepperoni".toList), ("mushrooms".toList), ("onions".toList), ("sausage".toList),
   ("bacon".toList), ("cheese".toList), ("extra cheese".toList), ("black olives".toList),
   ("green peppers".toList), ("pineapple".toList), ("spinach".toList), ("ham".toList),
   ("tomatoes".toList), ("chicken".toList), ("beef".toList), ("anchovies".toList),
   ("jalapenos".toList), ("garlic".toList), ("artichokes".toList), ("broccoli".toList),
   ("feta cheese".toList), ("salami".toList), ("red onions".toList), ("corn".toList),
   ("zucchini".toList), ("eggplant".toList), ("prosciutto".toList), ("basil".toList),
   ("sun-dried tomatoes".toList), ("roasted red peppers".toList), ("arugula".toList)]

/-- Pydantic validation of one optional enum string field. -/
def enumFieldOfJson (vals : List Str) : Json → Except Str (Option Str)
  | Json.null => Except.ok none
  | Json.str s => if s ∈ vals then Except.ok (some s) else Except.error ("validation error".toList)
  | _ => Except.error ("validation error".toList)

/-- Pydantic validation of the optional toppings list field. -/
def toppingsOfJson : Json → Except Str (Option (List Str))
  | Json.null => Except.ok none
  | Json.arr xs => do
    let ts ← xs.mapM (fun j =>
      match j with
      | Json.str s =>
        if s ∈ pizzaToppingVals then Except.ok s else Except.error ("validation error".toList)
      | _ => (Except.error ("validation error".toList) : Except Str Str))
    return some ts
  | _ => Except.error ("validation error".toList)

/-- The dict-to-`Pizza` conversion performed inside `create_initial_state`
(`Pizza(**pizza)` on the decoded dicts): pydantic validation of the three
optional fields; missing keys default to `None`; any non-dict element or
out-of-enum value raises. -/
def pizzaOfJson : Json → Except Str Pizza
  | Json.obj kvs => do
    let crust ← enumFieldOfJson pizzaCrustVals (dictGet kvs ("crust".toList) Json.null)
    let toppings ← toppingsOfJson (dictGet kvs ("toppings".toList) Json.null)
    let size ← enumFieldOfJson pizzaSizeVals (dictGet kvs ("size".toList) Json.null)
    return { crust := crust, toppings := toppings, size := size }
  | _ => Except.error ("validation error".toList)

/-- Conversion of the decoded `pizzas` value to typed pizzas. -/
def pizzasOfJson : Json → Except Str (List Pizza)
  | Json.arr xs => xs.mapM pizzaOfJson
  | _ => Except.error ("validation error".toList)

/-- Pydantic validation of `rejected` into a list of strings. -/
def rejectedOfJson : Json → Except Str (List Str)
  | Json.arr xs =>
    xs.mapM (fun j =>
      match j with
      | Json.str s => Except.ok s
      | _ => (Except.error ("validation error".toList) : Except Str Str))
  | _ => Except.error ("validation error".toList)

/-- Pydantic validation of `ambiguous` into (index, field) pairs. -/
def ambiguousOfJson : Json → Except Str (List (Int × Str))
  | Json.arr xs =>
    xs.mapM (fun j =>
      match j with
      | Json.arr [Json.int i, Json.str s] => Except.ok (i, s)
      | _ => (Except.error ("validation error".toList) : Except Str (Int × Str)))
  | _ => Except.error ("validation error".toList)

/-- `format_messages` from src/agent/nodes.py lines 64-89 on the two
message roles that occur in the model. -/
def format_messages (messages : List Message) : Str :=
  List.intercalate ("\n".toList) (messages.map (fun m =>
    match m with
    | Message.human c => ("human: ".toList) ++ c
    | Message.ai c => ("ai: ".toList) ++ c))

/-- Prompt assembly from `build_pizza_extraction_prompt` (src/agent/nodes.py
lines 91-96) with the `PIZZA_EXTRACTION_PROMPT` template of
src/agent/prompts.py; the fixed instruction text around the serialized
transcript is abbreviated (its exact wording is immaterial to every claim:
the extraction prompt depends on the state only through the transcript). -/
def build_pizza_extraction_prompt (messages : List Message) : Str :=
  ("You are a pizza order extractor.\nHere is the messages so far:\n".toList) ++
  format_messages messages ++
  ("\nExtract up to 100 pizzas from the messages with the caller.".toList)

/-- `extract_pizzas_node` from src/agent/nodes.py lines 137-155.  The LLM
collaborator is a parameter; `.error` models the call raising.  On failure
the `except` branch substitutes empty results with the single prefixed
error entry.  On success, the typed conversion of the decoded values (the
`Pizza(**pizza)` / pydantic `PizzaState` validation that the Python code
performs when constructing the new state) may itself raise; that exception
is not caught in the source and is modelled as `Except.error`. -/
def extract_pizzas_node (llm : Str → Except Str Str) (state : PizzaState) :
    Except Str PizzaState :=
  match llm (build_pizza_extraction_prompt state.messages) with
  | Except.error m =>
    Except.ok { create_initial_state [] [] [] [("LLM call failed: ".toList) ++ m] with
      messages := state.messages }
  | Except.ok response =>
    let r := parse_llm_pizza_response json_loads response
    match pizzasOfJson r.1, rejectedOfJson r.2.1, ambiguousOfJson r.2.2.1 with
    | Except.ok ps, Except.ok rj, Except.ok am =>
      Except.ok { create_initial_state ps rj am r.2.2.2 with messages := state.messages }
    | _, _, _ => Except.error ("ValidationError".toList)

/-- `make_accepted_fields` from src/agent/nodes.py lines 205-216 (the
`if pizza:` guard is always true: a pydantic model instance is truthy). -/
def make_accepted_fields (incs : List IncompleteEntry) : List (List (Str × FieldVal)) :=
  incs.map (fun inc => accepted_fields inc.pizza)

/-- Simple serialization used to render the payload lists into the prompt
text (approximates Python `str()`; the exact rendering is immaterial to
every claim — the elicitation reply is whatever the LLM returns). -/
def showStr (s : Str) : Str := '"' :: s ++ ['"']

/-- List rendering for the prompt payload. -/
def showStrList (xs : List Str) : Str :=
  '[' :: List.intercalate (", ".toList) xs ++ [']']

/-- Field-value rendering for the prompt payload. -/
def showFieldVal : FieldVal → Str
  | FieldVal.s v => showStr v
  | FieldVal.l v => showStrList (v.map showStr)

/-- Dict rendering for the prompt payload. -/
def showPairs (kvs : List (Str × FieldVal)) : Str :=
  '\x7b' :: List.intercalate (", ".toList)
    (kvs.map (fun kv => showStr kv.1 ++ (": ".toList) ++ showFieldVal kv.2)) ++ ['\x7d']

/-- Ambiguity-marker rendering for the prompt payload. -/
def showAmbiguous (amb : List (Int × Str)) : Str :=
  showStrList (amb.map (fun m =>
    '(' :: (toString m.1).toList ++ (", ".toList) ++ showStr m.2 ++ [')']))

/-- Complete-pizzas rendering for the prompt payload. -/
def showComplete (cs : List (Nat × Pizza)) : Str :=
  showStrList (cs.map (fun e =>
    '(' :: (toString e.1).toList ++ (", ".toList) ++ showPairs (accepted_fields e.2) ++ [')']))

/-- The summary-payload prompt built by `elicitation_response_node`
(src/agent/nodes.py lines 218-241) through `ORDER_SUMMARY_PROMPT`; template
text abbreviated as for the extraction prompt. -/
def order_summary_prompt (state : PizzaState) : Str :=
  let res := compute_pizza_completeness state
  let accepted := make_accepted_fields res.2
  let missing := (res.2.map (fun inc => inc.missing)).flatten
  ("You are an efficient pizza ordering assistant practicing active listening.\n".toList) ++
  ("Accepted Pizza Properties:\n".toList) ++ showStrList (accepted.map showPairs) ++
  ("\nRejected items:\n".toList) ++ showStrList (state.rejected.map showStr) ++
  ("\nAmbiguous:\n".toList) ++ showAmbiguous state.ambiguous ++
  ("\nMissing:\n".toList) ++ showStrList (missing.map showStr) ++
  ("\nComplete pizzas:\n".toList) ++ showComplete res.1

/-- `elicitation_response_node` from src/agent/nodes.py lines 218-244: sends
the summary prompt to the LLM collaborator and appends the reply as one
assistant turn; a raising LLM call propagates (no `try` in the source). -/
def elicitation_response_node (llm : Str → Except Str Str) (state : PizzaState) :
    Except Str PizzaState :=
  match llm (order_summary_prompt state) with
  | Except.error e => Except.error e
  | Except.ok response =>
    Except.ok { state with messages := state.messages ++ [Message.ai response] }

/-- Spec-side completeness predicate (section 4.2 of the spec): an order is
complete iff crust, toppings and size are all set (truthy) and no ambiguity
marker references its index. -/
def spec_complete (amb : List (Int × Str)) (idx : Nat) (p : Pizza) : Bool :=
  truthy_str p.crust && truthy_list p.toppings && truthy_str p.size &&
  amb.all (fun m => m.1 != (idx : Int))

/-- Spec-side incomplete record for the order at input position `idx`: the
ordinal of its 1-based position, the order, its accepted-field map, its
missing-field list and its ambiguous-field list. -/
def spec_incomplete_entry (amb : List (Int × Str)) (idx : Nat) (p : Pizza) :
    IncompleteEntry :=
  { index := ordinal ((idx : Int) + 1)
    pizza := p
    accepted := accepted_fields p
    missing := missing_fields p
    ambiguousFields := ambiguous_fields_for amb idx }

/-- Wrapping a response text in one layer of fenced-code-block markers: a
leading fence possibly tagged with a language hint, the text on its own
lines, and a trailing fence. -/
def wrapFence (hint : Str) (t : Str) : Str :=
  ("```".toList) ++ hint ++ ('\n' :: (t ++ ("\n```".toList)))

end PizzaSpec

namespace PizzaSpec

theorem aux_missing_isEmpty (p : Pizza) :
    (missing_fields p).isEmpty =
      (truthy_str p.crust && truthy_list p.toppings && truthy_str p.size) := by
  unfold missing_fields
  cases truthy_str p.crust <;> cases truthy_list p.toppings <;> cases truthy_str p.size <;> simp

theorem aux_amb_isEmpty (amb : List (Int × Str)) (idx : Nat) :
    (ambiguous_fields_for amb idx).isEmpty = amb.all (fun m => m.1 != (idx : Int)) := by
  induction amb with
  | nil => rfl
  | cons m t ih =>
    unfold ambiguous_fields_for at ih ⊢
    rw [List.filter_cons]
    by_cases h : m.1 = (idx : Int)
    · simp [h]
    · simp [h, ih]

theorem aux_cond_eq (amb : List (Int × Str)) (idx : Nat) (p : Pizza) :
    ((missing_fields p).isEmpty && (ambiguous_fields_for amb idx).isEmpty) =
      spec_complete amb idx p := by
  rw [aux_missing_isEmpty, aux_amb_isEmpty, spec_complete]

theorem aux_completeness_go (amb : List (Int × Str)) (l : List Pizza) :
    ∀ idx : Nat, completeness_go amb idx l =
      ((List.enumFrom idx l).filter (fun e => spec_complete amb e.1 e.2),
       ((List.enumFrom idx l).filter (fun e => !spec_complete amb e.1 e.2)).map
         (fun e => spec_incomplete_entry amb e.1 e.2)) := by
  induction l with
  | nil => intro idx; rfl
  | cons p rest ih =>
    intro idx
    rw [completeness_go, ih (idx + 1), List.enumFrom_cons, List.filter_cons, List.filter_cons]
    rw [show ((missing_fields p).isEmpty && (ambiguous_fields_for amb idx).isEmpty) =
      spec_complete amb idx p from aux_cond_eq amb idx p]
    by_cases h : spec_complete amb idx p = true
    · simp [h, spec_incomplete_entry]
    · simp only [Bool.not_eq_true] at h
      simp [h, spec_incomplete_entry]

theorem aux_filter_length_split (p : α → Bool) (l : List α) :
    (l.filter p).length + (l.filter (fun a => !p a)).length = l.length := by
  induction l with
  | nil => rfl
  | cons a t ih =>
    rw [List.filter_cons, List.filter_cons]
    by_cases h : p a = true <;> simp [h] <;> omega

/-- C1: `compute_pizza_completeness` partitions the N input orders
(`len(complete) + len(incomplete) = N`), in input order index ascending
(both outputs are order-preserving filters of the enumerated input); an
order lands in `complete` iff its crust, toppings and size are all truthy
and no ambiguity marker references its index, and otherwise appears in
`incomplete` carrying its missing-field list, accepted field-value map,
ambiguous-field list, and the ordinal of its 1-based input position. -/
theorem compute_pizza_completeness_spec (state : PizzaState) :
    (compute_pizza_completeness state).1.length + (compute_pizza_completeness state).2.length
        = state.pizzas.length ∧
    (compute_pizza_completeness state).1 =
      (List.enumFrom 0 state.pizzas).filter (fun e => spec_complete state.ambiguous e.1 e.2) ∧
    (compute_pizza_completeness state).2 =
      ((List.enumFrom 0 state.pizzas).filter
        (fun e => !spec_complete state.ambiguous e.1 e.2)).map
        (fun e => spec_incomplete_entry state.ambiguous e.1 e.2) := by
  have h := aux_completeness_go state.ambiguous state.pizzas 0
  rw [compute_pizza_completeness, h]
  refine ⟨?_, rfl, rfl⟩
  rw [List.length_map]
  rw [aux_filter_length_split (fun e => spec_complete state.ambiguous e.1 e.2)
    (List.enumFrom 0 state.pizzas)]
  exact List.enumFrom_length

theorem aux_inject_mem (p : Pizza) :
    ("cheese".toList) ∈ (inject_default_topping p).toppings.getD [] := by
  cases h : p.toppings with
  | none => simp [inject_default_topping, h]
  | some ts =>
    simp only [inject_default_topping, h]
    by_cases hc : ("cheese".toList) ∈ ts
    · rw [if_pos hc, h]
      simpa using hc
    · rw [if_neg hc]
      simp

theorem aux_inject_idem (p : Pizza) :
    inject_default_topping (inject_default_topping p) = inject_default_topping p := by
  cases hp : p.toppings with
  | none =>
    have hi : inject_default_topping p =
        { p with toppings := some [("cheese".toList)] } := by
      simp [inject_default_topping, hp]
    rw [hi]
    simp [inject_default_topping]
  | some ts =>
    by_cases hc : ("cheese".toList) ∈ ts
    · have hi : inject_default_topping p = p := by
        simp only [inject_default_topping, hp]
        rw [if_pos hc]
      rw [hi, hi]
    · have hi : inject_default_topping p =
          { p with toppings := some (ts ++ [("cheese".toList)]) } := by
        simp only [inject_default_topping, hp]
        rw [if_neg hc]
      rw [hi]
      simp [inject_default_topping]

/-- C2: after `create_initial_state`, every resulting pizza is the
default-topping injection of an input pizza; its toppings list is non-empty
and contains `"cheese"`; the injection rule puts `["cheese"]` as the sole
toppings when unset, appends `"cheese"` to a list lacking it, leaves a list
already containing it unchanged, and is idempotent (every output pizza is a
fixed point of the rule). -/
theorem create_initial_state_cheese (pizzas : List Pizza) (rejected : List Str)
    (ambiguous : List (Int × Str)) (errors : List Str) (q : Pizza)
    (hq : q ∈ (create_initial_state pizzas rejected ambiguous errors).pizzas) :
    ("cheese".toList) ∈ q.toppings.getD [] ∧ q.toppings.getD [] ≠ [] ∧
    inject_default_topping q = q ∧
    ∃ p ∈ pizzas, q = inject_default_topping p ∧
      (p.toppings = none → q.toppings = some [("cheese".toList)]) ∧
      (∀ ts, p.toppings = some ts → ("cheese".toList) ∉ ts →
        q.toppings = some (ts ++ [("cheese".toList)])) ∧
      (∀ ts, p.toppings = some ts → ("cheese".toList) ∈ ts → q = p) := by
  simp only [create_initial_state, List.mem_map] at hq
  obtain ⟨p, hp, rfl⟩ := hq
  refine ⟨aux_inject_mem p, ?_, aux_inject_idem p, p, hp, rfl, ?_, ?_, ?_⟩
  · intro hnil
    have h := aux_inject_mem p
    rw [hnil] at h
    simp at h
  · intro hnone
    simp [inject_default_topping, hnone]
  · intro ts hts hc
    simp only [inject_default_topping, hts]
    rw [if_neg hc]
  · intro ts hts hc
    simp only [inject_default_topping, hts]
    rw [if_pos hc]

/-- Witness for C2 at a concrete input: injecting into a pizza with unset
toppings yields the cheese-containing result. -/
theorem create_initial_state_cheese_witness :
    ("cheese".toList) ∈
      (({ crust := none, toppings := some [("cheese".toList)], size := none } :
        Pizza)).toppings.getD [] :=
  (create_initial_state_cheese [{ crust := none, toppings := none, size := none }] [] [] []
    { crust := none, toppings := some [("cheese".toList)], size := none }
    (by simp [create_initial_state, inject_default_topping])).1

/-- C4: the branch decision routes to elicitation iff the classifier yields
at least one incomplete order, and to confirmation otherwise; a state with
zero orders routes to confirmation. -/
theorem pizza_branching_spec (state : PizzaState) :
    (pizza_branching state = ELICITATION_RESPONSE ↔
      (compute_pizza_completeness state).2 ≠ []) ∧
    (pizza_branching state = ORDER_CONFIRMATION ↔
      (compute_pizza_completeness state).2 = []) ∧
    (state.pizzas = [] → pizza_branching state = ORDER_CONFIRMATION) := by
  have hne : ELICITATION_RESPONSE ≠ ORDER_CONFIRMATION := by decide
  by_cases h : (compute_pizza_completeness state).2 = []
  · refine ⟨?_, ?_, fun _ => ?_⟩ <;> simp [pizza_branching, h, hne, hne.symm]
  · refine ⟨?_, ?_, fun hpz => ?_⟩
    · simp [pizza_branching, h]
    · simp [pizza_branching, h, hne]
    · exact absurd (by rw [compute_pizza_completeness, hpz]; rfl) h

/-- Witness for C4 at the empty state: zero orders routes to confirmation. -/
theorem pizza_branching_spec_witness :
    pizza_branching (⟨[], [], [], [], [], []⟩ : PizzaState) = ORDER_CONFIRMATION :=
  (pizza_branching_spec _).2.2 rfl

/-- C9: `ordinal` returns the exact English ordinal words for 1..20, the
numeric string with a `"th"` suffix for every integer outside that range,
and in particular `"21th"` (not `"21st"`) for 21. -/
theorem ordinal_spec :
    (∀ n : Int, (n < 1 ∨ 20 < n) → ordinal n = (toString n).toList ++ ("th".toList)) ∧
    (ordinal 1 = ("first".toList) ∧ ordinal 2 = ("second".toList) ∧
     ordinal 3 = ("third".toList) ∧ ordinal 4 = ("fourth".toList) ∧
     ordinal 5 = ("fifth".toList) ∧ ordinal 6 = ("sixth".toList) ∧
     ordinal 7 = ("seventh".toList) ∧ ordinal 8 = ("eighth".toList) ∧
     ordinal 9 = ("ninth".toList) ∧ ordinal 10 = ("tenth".toList) ∧
     ordinal 11 = ("eleventh".toList) ∧ ordinal 12 = ("twelfth".toList) ∧
     ordinal 13 = ("thirteenth".toList) ∧ ordinal 14 = ("fourteenth".toList) ∧
     ordinal 15 = ("fifteenth".toList) ∧ ordinal 16 = ("sixteenth".toList) ∧
     ordinal 17 = ("seventeenth".toList) ∧ ordinal 18 = ("eighteenth".toList) ∧
     ordinal 19 = ("nineteenth".toList) ∧ ordinal 20 = ("twentieth".toList)) ∧
    ordinal 21 = ("21th".toList) := by
  refine ⟨?_, by decide, by decide⟩
  intro n h
  have hn : ¬(1 ≤ n ∧ n ≤ 20) := by omega
  simp [ordinal, hn]

/-- Witness for C9 on the out-of-range side. -/
theorem ordinal_spec_witness :
    ordinal 0 = (toString (0 : Int)).toList ++ ("th".toList) :=
  ordinal_spec.1 0 (Or.inl (by decide))

/-- C3: the confirmation action is deterministic (no LLM collaborator in
its signature): with no incomplete order it appends exactly one assistant
turn whose content wraps, in the fixed confirmation message, one line
`Your "ordinal" pizza: "size|?" "crust|?" crust with "comma-joined
toppings"` per complete order, joined by newlines; with at least one
incomplete order it halts with the invariant-violation diagnostic and
appends nothing. -/
theorem order_confirmation_node_spec (state : PizzaState) :
    ((compute_pizza_completeness state).2 = [] →
      order_confirmation_node state = Except.ok { state with
        messages := state.messages ++ [Message.ai (
          ("Your pizza order is complete!\n\nOrder summary:\n".toList) ++
          List.intercalate ("\n".toList) ((compute_pizza_completeness state).1.map (fun e =>
            ("Your ".toList) ++ ordinal ((e.1 : Int) + 1) ++ (" pizza: ".toList) ++
            py_or_str e.2.size ("?".toList) ++ (" ".toList) ++
            py_or_str e.2.crust ("?".toList) ++ (" crust with ".toList) ++
            List.intercalate (", ".toList) (e.2.toppings.getD []))) ++
          ("\n\nThank you.".toList))] }) ∧
    ((compute_pizza_completeness state).2 ≠ [] →
      order_confirmation_node state =
        Except.error ("order_confirmation_node called with incomplete pizzas!".toList)) := by
  constructor
  · intro h
    simp [order_confirmation_node, h]
  · intro h
    have hh : (compute_pizza_completeness state).2.isEmpty = false := by
      cases hcc : (compute_pizza_completeness state).2 with
      | nil => exact absurd hcc h
      | cons a t => simp [hcc]
    simp [order_confirmation_node, hh]

/-- Witness for C3: a single complete order renders the expected single
confirmation line. -/
theorem order_confirmation_node_spec_witness :
    order_confirmation_node
      (⟨[⟨some ("thin".toList), some [("cheese".toList)], some ("small".toList)⟩],
        [], [], [], [], []⟩ : PizzaState) =
    Except.ok
      (⟨[⟨some ("thin".toList), some [("cheese".toList)], some ("small".toList)⟩],
        [Message.ai (("Your pizza order is complete!\n\nOrder summary:\n" ++
          "Your first pizza: small thin crust with cheese\n\nThank you.").toList)],
        [], [], [], []⟩ : PizzaState) := by
  exact (order_confirmation_node_spec
    ⟨[⟨some ("thin".toList), some [("cheese".toList)], some ("small".toList)⟩],
      [], [], [], [], []⟩).1 (by decide)

/-- C10: invoking confirmation on a state whose orders list is empty
succeeds — the precondition holds vacuously, no InvariantViolation — and
appends exactly one assistant turn carrying the fixed confirmation message
with an empty order-summary section. -/
theorem order_confirmation_empty_orders (state : PizzaState) (h : state.pizzas = []) :
    order_confirmation_node state = Except.ok { state with
      messages := state.messages ++
        [Message.ai ("Your pizza order is complete!\n\nOrder summary:\n\n\nThank you.".toList)] } := by
  have hc : compute_pizza_completeness state = ([], []) := by
    rw [compute_pizza_completeness, h]
    rfl
  simp [order_confirmation_node, hc]
  rfl

/-- Witness for C10 at the empty state. -/
theorem order_confirmation_empty_orders_witness :
    order_confirmation_node (⟨[], [], [], [], [], []⟩ : PizzaState) = Except.ok
      (⟨[], [Message.ai ("Your pizza order is complete!\n\nOrder summary:\n\n\nThank you.".toList)],
        [], [], [], []⟩ : PizzaState) := by
  exact order_confirmation_empty_orders ⟨[], [], [], [], [], []⟩ rfl

theorem aux_pyStartswith_append (p r : Str) : pyStartswith p (p ++ r) = true := by
  induction p with
  | nil => rfl
  | cons a t ih => simp [pyStartswith, ih]

theorem aux_strContains_of_startswith (hay needle : Str)
    (h : pyStartswith needle hay = true) : strContains hay needle = true := by
  cases hay with
  | nil => simpa [strContains] using h
  | cons a t => simp [strContains, h]

/-- C5: if the decoder fails on the (fence-stripped) response, or yields a
non-mapping value, the parser returns zero pizzas, zero rejected items and
zero ambiguity markers, together with a diagnostic carrying the failure
message and a second diagnostic carrying the raw text; on decode failure
the first diagnostic contains `"Failed to parse"`.  (The parser is a total
function: it never throws.) -/
theorem parse_llm_pizza_response_error_spec (loads : Str → Except Str Json) (response : Str) :
    (∀ m, loads (stripFences response) = Except.error m →
      parse_llm_pizza_response loads response =
        (Json.arr [], Json.arr [], Json.arr [],
          [("Failed to parse LLM response as JSON: ".toList) ++ m,
           ("Raw response: ".toList) ++ stripFences response]) ∧
      strContains (("Failed to parse LLM response as JSON: ".toList) ++ m)
        ("Failed to parse".toList) = true) ∧
    (∀ v, loads (stripFences response) = Except.ok v → (∀ kvs, v ≠ Json.obj kvs) →
      parse_llm_pizza_response loads response =
        (Json.arr [], Json.arr [], Json.arr [],
          [("LLM response JSON is not an object: ".toList) ++ jsonTypeName v,
           ("Raw response: ".toList) ++ stripFences response])) := by
  constructor
  · intro m h
    constructor
    · simp [parse_llm_pizza_response, h]
    · rw [show ("Failed to parse LLM response as JSON: ".toList) ++ m =
        ("Failed to parse".toList) ++ ((" LLM response as JSON: ".toList) ++ m) from rfl]
      exact aux_strContains_of_startswith _ _ (aux_pyStartswith_append _ _)
  · intro v hok hne
    cases v with
    | obj kvs => exact absurd rfl (hne kvs)
    | null => simp [parse_llm_pizza_response, hok, jsonTypeName]
    | bool b => simp [parse_llm_pizza_response, hok, jsonTypeName]
    | int n => simp [parse_llm_pizza_response, hok, jsonTypeName]
    | float r => simp [parse_llm_pizza_response, hok, jsonTypeName]
    | str s => simp [parse_llm_pizza_response, hok, jsonTypeName]
    | arr xs => simp [parse_llm_pizza_response, hok, jsonTypeName]

/-- Witness for C5: a malformed response yields the empty tuple and the two
diagnostics, the first containing `"Failed to parse"`. -/
theorem parse_llm_pizza_response_error_spec_witness :
    parse_llm_pizza_response json_loads ("not json".toList) =
      (Json.arr [], Json.arr [], Json.arr [],
        [("Failed to parse LLM response as JSON: Expecting value".toList),
         ("Raw response: not json".toList)]) ∧
    strContains ("Failed to parse LLM response as JSON: Expecting value".toList)
      ("Failed to parse".toList) = true := by
  have h := (parse_llm_pizza_response_error_spec json_loads ("not json".toList)).1
    ("Expecting value".toList) (by rfl)
  exact ⟨h.1, h.2⟩

/-- C6: if the LLM collaborator call inside extraction raises with message
m, the returned state has empty orders, rejected items and ambiguity
markers, an errors list with the single entry `"LLM call failed: " ++ m`,
the transcript unchanged — and the node returns normally (`Except.ok`): no
exception propagates. -/
theorem extract_pizzas_node_llm_failure (llm : Str → Except Str Str) (state : PizzaState)
    (m : Str) (h : llm (build_pizza_extraction_prompt state.messages) = Except.error m) :
    extract_pizzas_node llm state = Except.ok
      { pizzas := [], messages := state.messages, rejected := [], ambiguous := [],
        questions := [], errors := [("LLM call failed: ".toList) ++ m] } := by
  simp [extract_pizzas_node, h, create_initial_state]

/-- Witness for C6 with a concretely failing collaborator. -/
theorem extract_pizzas_node_llm_failure_witness :
    extract_pizzas_node (fun _ => Except.error ("boom".toList))
      (⟨[], [Message.human ("hi".toList)], [], [], [], []⟩ : PizzaState) =
    Except.ok (⟨[], [Message.human ("hi".toList)], [], [], [],
      [("LLM call failed: boom".toList)]⟩ : PizzaState) := by
  exact extract_pizzas_node_llm_failure _ _ ("boom".toList) rfl

theorem aux_extract_ok_messages (llm : Str → Except Str Str) (state : PizzaState)
    (st' : PizzaState) (h : extract_pizzas_node llm state = Except.ok st') :
    st'.messages = state.messages := by
  unfold extract_pizzas_node at h
  split at h
  · simp only [Except.ok.injEq] at h
    rw [← h]
  · simp only [] at h
    split at h
    · simp only [Except.ok.injEq] at h
      rw [← h]
    · simp at h

theorem aux_extract_messages_only (llm : Str → Except Str Str) (s1 s2 : PizzaState)
    (h : s1.messages = s2.messages) :
    extract_pizzas_node llm s1 = extract_pizzas_node llm s2 := by
  unfold extract_pizzas_node
  rw [h]

/-- C7 amended: across one turn the extractor replaces orders, rejected
items, ambiguities and errors wholesale — its result depends on the
previous state only through the transcript, which every successful result
carries unchanged — and each reconciler success appends exactly one
assistant turn to the transcript while leaving every other field, including
`questions` (the pendingQuestions buffer), unchanged; no operation deletes
or alters existing transcript history. -/
theorem turn_frame_spec (llm : Str → Except Str Str) (state : PizzaState) :
    (∀ st', extract_pizzas_node llm state = Except.ok st' →
      st'.messages = state.messages ∧
      (∀ s2 : PizzaState, s2.messages = state.messages →
        extract_pizzas_node llm s2 = Except.ok st')) ∧
    (∀ st', elicitation_response_node llm state = Except.ok st' →
      (∃ r, llm (order_summary_prompt state) = Except.ok r ∧
        st'.messages = state.messages ++ [Message.ai r]) ∧
      st'.pizzas = state.pizzas ∧ st'.rejected = state.rejected ∧
      st'.ambiguous = state.ambiguous ∧ st'.questions = state.questions ∧
      st'.errors = state.errors) ∧
    (∀ st', order_confirmation_node state = Except.ok st' →
      (∃ msg, st'.messages = state.messages ++ [Message.ai msg]) ∧
      st'.pizzas = state.pizzas ∧ st'.rejected = state.rejected ∧
      st'.ambiguous = state.ambiguous ∧ st'.questions = state.questions ∧
      st'.errors = state.errors) := by
  refine ⟨?_, ?_, ?_⟩
  · intro st' h
    refine ⟨aux_extract_ok_messages llm state st' h, ?_⟩
    intro s2 h2
    rw [aux_extract_messages_only llm s2 state h2]
    exact h
  · intro st' h
    unfold elicitation_response_node at h
    split at h
    · simp at h
    · simp only [Except.ok.injEq] at h
      rename_i r hr
      rw [← h]
      exact ⟨⟨r, hr, rfl⟩, rfl, rfl, rfl, rfl, rfl⟩
  · intro st' h
    unfold order_confirmation_node at h
    simp only [] at h
    split at h
    · simp at h
    · simp only [Except.ok.injEq] at h
      rw [← h]
      exact ⟨⟨_, rfl⟩, rfl, rfl, rfl, rfl, rfl⟩

/-- Counterexample to C7 as stated: the reconciler does not mutate
pendingQuestions — at this concrete state with a non-empty `questions`
buffer, the elicitation response appends its one assistant turn and
returns `questions` exactly unchanged. -/
theorem turn_frame_counterexample :
    elicitation_response_node (fun _ => Except.ok ("hi".toList))
      (⟨[⟨none, none, none⟩], [], [], [], [("q".toList)], []⟩ : PizzaState) =
    Except.ok (⟨[⟨none, none, none⟩], [Message.ai ("hi".toList)], [], [],
      [("q".toList)], []⟩ : PizzaState) := by
  rfl

theorem aux_sw_of_sw_append (p q r : Str)
    (h : pyStartswith (p ++ q) r = true) : pyStartswith p r = true := by
  induction p generalizing r with
  | nil => rfl
  | cons a t ih =>
    cases r with
    | nil => simp [pyStartswith] at h
    | cons b s =>
      simp only [List.cons_append, pyStartswith, Bool.and_eq_true] at h ⊢
      exact ⟨h.1, ih s h.2⟩

theorem aux_backtick_space (c : Char) (h : isPySpace c = true) : ('\x60' == c) = false := by
  by_cases hc : c = '\x60'
  · subst hc
    exact absurd h (by decide)
  · exact beq_eq_false_iff_ne.mpr (fun hh => hc hh.symm)

theorem aux_dropWhile_idem (p : α → Bool) (l : List α) :
    (l.dropWhile p).dropWhile p = l.dropWhile p := by
  induction l with
  | nil => rfl
  | cons a t ih =>
    rw [List.dropWhile_cons]
    by_cases h : p a = true
    · simp [h, ih]
    · simp [h, List.dropWhile_cons]

theorem aux_length_dropWhile_le (p : α → Bool) (l : List α) :
    (l.dropWhile p).length ≤ l.length := by
  induction l with
  | nil => simp
  | cons a t ih =>
    rw [List.dropWhile_cons]
    by_cases h : p a = true
    · simp only [h, if_true]
      exact Nat.le_trans ih (by simp)
    · simp [h]

theorem aux_lstrip_cons_space (c : Char) (t : Str) (h : isPySpace c = true) :
    lstrip (c :: t) = lstrip t := by
  simp [lstrip, List.dropWhile_cons, h]

theorem aux_lstrip_cons_nospace (c : Char) (t : Str) (h : isPySpace c = false) :
    lstrip (c :: t) = c :: t := by
  simp [lstrip, List.dropWhile_cons, h]

theorem aux_rstrip_of_last_nospace (X : Str) (c : Char) (r : Str)
    (h : X.reverse = c :: r) (hc : isPySpace c = false) : rstrip X = X := by
  unfold rstrip
  rw [h, List.dropWhile_cons, hc]
  simp only [Bool.false_eq_true, if_false]
  rw [← h, List.reverse_reverse]

theorem aux_rstrip_idem (s : Str) : rstrip (rstrip s) = rstrip s := by
  unfold rstrip
  rw [List.reverse_reverse, aux_dropWhile_idem]

theorem aux_rstrip_decomp (u : Str) :
    u = rstrip u ++ (u.reverse.takeWhile isPySpace).reverse ∧
    ∀ c ∈ (u.reverse.takeWhile isPySpace).reverse, isPySpace c = true := by
  constructor
  · calc u = u.reverse.reverse := (List.reverse_reverse u).symm
    _ = ((u.reverse.takeWhile isPySpace) ++ (u.reverse.dropWhile isPySpace)).reverse := by
        rw [List.takeWhile_append_dropWhile]
    _ = (u.reverse.dropWhile isPySpace).reverse ++ (u.reverse.takeWhile isPySpace).reverse := by
        rw [List.reverse_append]
    _ = rstrip u ++ (u.reverse.takeWhile isPySpace).reverse := rfl
  · intro c hc
    exact List.mem_takeWhile_imp (List.mem_reverse.mp hc)

theorem aux_fence_pre_append (u X : Str) (hu : u ≠ [])
    (hX : ∀ c, X.head? = some c → ('\x60' == c) = false) :
    pyStartswith ("```".toList) (u ++ X) = pyStartswith ("```".toList) u := by
  have hfe : ("```".toList : Str) = '\x60' :: '\x60' :: '\x60' :: [] := rfl
  obtain ⟨a, u1, rfl⟩ := List.exists_cons_of_ne_nil hu
  cases u1 with
  | nil =>
    cases X with
    | nil => simp
    | cons c X' =>
      have hc := hX c rfl
      simp [hfe, pyStartswith, hc]
  | cons b u2 =>
    cases u2 with
    | nil =>
      cases X with
      | nil => simp
      | cons c X' =>
        have hc := hX c rfl
        simp [hfe, pyStartswith, hc]
    | cons d u3 =>
      simp [hfe, pyStartswith]

theorem aux_fence_pre_rstrip (u : Str) :
    pyStartswith ("```".toList) (rstrip u) = pyStartswith ("```".toList) u := by
  obtain ⟨hw, hsp⟩ := aux_rstrip_decomp u
  by_cases hs : rstrip u = []
  · have hu : u = (u.reverse.takeWhile isPySpace).reverse := by
      conv_lhs => rw [hw, hs]
      rw [List.nil_append]
    rw [hs, hu]
    cases hww : (u.reverse.takeWhile isPySpace).reverse with
    | nil => rfl
    | cons c w' =>
      have hc : isPySpace c = true := hsp c (by rw [hww]; exact List.mem_cons_self c w')
      have hbc := aux_backtick_space c hc
      simp [show ("```".toList : Str) = '\x60' :: '\x60' :: '\x60' :: [] from rfl,
        pyStartswith, hbc]
  · conv_rhs => rw [hw]
    refine (aux_fence_pre_append (rstrip u) _ hs ?_).symm
    intro c hc
    exact aux_backtick_space c (hsp c (List.mem_of_mem_head? hc))

theorem aux_mid_strip (t : Str) :
    pyStrip ('\n' :: (t ++ ("\n```".toList))) =
      if lstrip t = [] then ("```".toList) else lstrip t ++ ("\n```".toList) := by
  unfold pyStrip
  rw [aux_lstrip_cons_space '\n' _ (by decide)]
  unfold lstrip
  rw [List.dropWhile_append]
  by_cases h : t.dropWhile isPySpace = []
  · rw [if_pos (by simp [h]), if_pos h]
    rfl
  · have hE : (t.dropWhile isPySpace).isEmpty = false := by
      cases hcc : t.dropWhile isPySpace with
      | nil => exact absurd hcc h
      | cons a l => rfl
    rw [if_neg (by simp [hE]), if_neg h]
    exact aux_rstrip_of_last_nospace _ '\x60'
      (('\x60' :: '\x60' :: '\n' :: []) ++ (t.dropWhile isPySpace).reverse)
      (by rw [List.reverse_append]; rfl) (by decide)

theorem aux_stripFences_plain (t : Str)
    (h1 : pyStartswith ("```".toList) (pyStrip t) = false)
    (h2 : pyEndswith ("```".toList) (pyStrip t) = false) :
    stripFences t = pyStrip t := by
  have hj : pyStartswith ("```json".toList) (pyStrip t) = false := by
    by_contra hcon
    rw [Bool.not_eq_false] at hcon
    have h3 := aux_sw_of_sw_append ("```".toList) ("json".toList) (pyStrip t)
      (by rw [show ("```".toList : Str) ++ ("json".toList) = ("```json".toList) from rfl]
          exact hcon)
    rw [h3] at h1
    simp at h1
  simp only [stripFences]
  simp only [List.isEmpty_iff] at *
  simp at hj h1 h2 ⊢
  simp [hj, h1, h2]

theorem aux_case_b_end (t : Str) :
    pyEndswith ("```".toList) (lstrip t ++ ("\n```".toList)) = true := by
  unfold pyEndswith
  rw [List.reverse_append]
  rw [show (("```".toList : Str)).reverse = ("```".toList) from by decide]
  rw [show (("\n```".toList : Str)).reverse = ("```".toList) ++ ('\n' :: []) from by decide]
  rw [List.append_assoc]
  exact aux_pyStartswith_append _ _

theorem aux_case_b_take (t : Str) :
    (lstrip t ++ ("\n```".toList)).take ((lstrip t ++ ("\n```".toList)).length - 3) =
      lstrip t ++ ('\n' :: []) := by
  have hlen : (lstrip t ++ ("\n```".toList)).length - 3 = (lstrip t).length + 1 := by
    rw [List.length_append]
    rw [show (("\n```".toList : Str)).length = 4 from by decide]
    omega
  rw [hlen]
  rw [@List.take_append Char (lstrip t) ("\n```".toList) 1]
  rw [show (("\n```".toList : Str)).take 1 = ('\n' :: []) from by decide]

theorem aux_case_b_strip (t : Str) (hA : lstrip t ≠ []) :
    pyStrip (lstrip t ++ ('\n' :: [])) = pyStrip t := by
  have hcond : ¬((t.dropWhile isPySpace).isEmpty = true) := by
    intro hcc
    exact hA (List.isEmpty_iff.mp hcc)
  have hls : lstrip (lstrip t ++ ('\n' :: [])) = lstrip t ++ ('\n' :: []) := by
    unfold lstrip
    rw [List.dropWhile_append, aux_dropWhile_idem, if_neg hcond]
  have hrs : rstrip (lstrip t ++ ('\n' :: [])) = rstrip (lstrip t) := by
    unfold rstrip
    rw [List.reverse_append]
    rw [show ((('\n' :: [] : Str)).reverse ++ (lstrip t).reverse : Str) =
      '\n' :: (lstrip t).reverse from rfl]
    rw [List.dropWhile_cons, if_pos (by decide)]
  unfold pyStrip
  rw [hls, hrs]

theorem aux_case_b_nofence (t : Str) (h1 : pyStartswith ("```".toList) (pyStrip t) = false)
    (hA : lstrip t ≠ []) :
    pyStartswith ("```".toList) (lstrip t ++ ("\n```".toList)) = false := by
  have hX : ∀ c, (("\n```".toList : Str)).head? = some c → ('\x60' == c) = false := by
    intro c hc
    rw [show (("\n```".toList : Str)).head? = some '\n' from rfl] at hc
    rw [← Option.some.inj hc]
    decide
  rw [aux_fence_pre_append (lstrip t) ("\n```".toList) hA hX]
  rw [← aux_fence_pre_rstrip (lstrip t)]
  exact h1

theorem aux_stripFences_wrap (hint t : Str) (hh : hint = [] ∨ hint = ("json".toList))
    (h1 : pyStartswith ("```".toList) (pyStrip t) = false) :
    stripFences (wrapFence hint t) = pyStrip t := by
  have hsplit : wrapFence hint t =
      ((("```".toList) ++ hint ++ ('\n' :: t)) ++ ("\n```".toList)) := by
    simp [wrapFence]
  have hl : lstrip (wrapFence hint t) = wrapFence hint t :=
    aux_lstrip_cons_nospace '\x60' _ (by decide)
  have hr : rstrip (wrapFence hint t) = wrapFence hint t := by
    refine aux_rstrip_of_last_nospace _ '\x60'
      (('\x60' :: '\x60' :: '\n' :: []) ++ (("```".toList) ++ hint ++ ('\n' :: t)).reverse)
      ?_ (by decide)
    rw [hsplit, List.reverse_append]
    rfl
  have hWps : pyStrip (wrapFence hint t) = wrapFence hint t := by
    unfold pyStrip
    rw [hl, hr]
  have hM := aux_mid_strip t
  obtain hh | hh := hh
  · subst hh
    have hW0 : wrapFence [] t = ("```".toList) ++ ('\n' :: (t ++ ("\n```".toList))) := by
      simp [wrapFence]
    have hjf : pyStartswith ("```json".toList) (wrapFence [] t) = false := by
      rw [hW0]
      have hjn : ('j' == '\n') = false := by decide
      simp [show ("```json".toList : Str) =
          '\x60' :: '\x60' :: '\x60' :: 'j' :: 's' :: 'o' :: 'n' :: [] from rfl,
        show ("```".toList : Str) = '\x60' :: '\x60' :: '\x60' :: [] from rfl,
        pyStartswith, hjn]
    have hsw0 : pyStartswith ("```".toList) (wrapFence [] t) = true := by
      rw [hW0]
      exact aux_pyStartswith_append _ _
    have hdrop3 : (wrapFence [] t).drop 3 = '\n' :: (t ++ ("\n```".toList)) := by
      rw [hW0]
      have hdl := List.drop_left ("```".toList) ('\n' :: (t ++ ("\n```".toList)))
      rw [show (("```".toList : Str)).length = 3 from by decide] at hdl
      exact hdl
    simp only [stripFences]
    rw [hWps, hjf]
    simp only [Bool.false_eq_true, if_false]
    rw [hsw0]
    simp only [eq_self_iff_true, if_true]
    rw [hdrop3, hM]
    by_cases hA : lstrip t = []
    · rw [if_pos hA]
      rw [show pyEndswith ("```".toList) ("```".toList) = true from by decide]
      simp only [eq_self_iff_true, if_true]
      rw [show (("```".toList : Str)).length - 3 = 0 from by decide]
      rw [show (("```".toList : Str)).take 0 = [] from rfl]
      rw [show pyStrip ([] : Str) = [] from rfl]
      unfold pyStrip
      rw [hA]
      rfl
    · rw [if_neg hA, aux_case_b_end t]
      simp only [eq_self_iff_true, if_true]
      rw [aux_case_b_take t, aux_case_b_strip t hA]
  · subst hh
    have hWj : wrapFence ("json".toList) t =
        ("```json".toList) ++ ('\n' :: (t ++ ("\n```".toList))) := rfl
    have hswj : pyStartswith ("```json".toList) (wrapFence ("json".toList) t) = true := by
      rw [hWj]
      exact aux_pyStartswith_append _ _
    have hdrop7 : (wrapFence ("json".toList) t).drop 7 = '\n' :: (t ++ ("\n```".toList)) := by
      rw [hWj]
      have hdl := List.drop_left ("```json".toList) ('\n' :: (t ++ ("\n```".toList)))
      rw [show (("```json".toList : Str)).length = 7 from by decide] at hdl
      exact hdl
    simp only [stripFences]
    rw [hWps, hswj]
    simp only [eq_self_iff_true, if_true]
    rw [hdrop7, hM]
    by_cases hA : lstrip t = []
    · rw [if_pos hA]
      rw [show pyStartswith ("```".toList) ("```".toList) = true from by decide]
      simp only [eq_self_iff_true, if_true]
      rw [show (("```".toList : Str)).drop 3 = [] from rfl]
      rw [show pyStrip ([] : Str) = [] from rfl]
      rw [show pyEndswith ("```".toList) ([] : Str) = false from by decide]
      simp only [Bool.false_eq_true, if_false]
      unfold pyStrip
      rw [hA]
      rfl
    · rw [if_neg hA]
      rw [aux_case_b_nofence t h1 hA]
      simp only [Bool.false_eq_true, if_false]
      rw [aux_case_b_end t]
      simp only [eq_self_iff_true, if_true]
      rw [aux_case_b_take t, aux_case_b_strip t hA]

theorem aux_parse_congr (loads : Str → Except Str Json) (a b : Str)
    (h : stripFences a = stripFences b) :
    parse_llm_pizza_response loads a = parse_llm_pizza_response loads b := by
  unfold parse_llm_pizza_response
  rw [h]

/-- C8 amended: for every response text whose whitespace-stripped form
neither starts nor ends with a fence marker, wrapping it in a single layer
of fenced-code-block markers with no language tag or with the `json` tag
(the only tag the code strips) makes the parser return exactly the same
`(pizzas, rejected, ambiguous, errors)` tuple as parsing the unwrapped
text, for any decoder. -/
theorem parse_fence_wrap_spec (loads : Str → Except Str Json) (hint t : Str)
    (hh : hint = [] ∨ hint = ("json".toList))
    (h1 : pyStartswith ("```".toList) (pyStrip t) = false)
    (h2 : pyEndswith ("```".toList) (pyStrip t) = false) :
    parse_llm_pizza_response loads (wrapFence hint t) = parse_llm_pizza_response loads t :=
  aux_parse_congr loads _ _
    (by rw [aux_stripFences_wrap hint t hh h1, aux_stripFences_plain t h1 h2])

/-- Counterexample to C8 as stated: for the response text `5 ` followed by
a fence marker, wrapping it in json-tagged fence markers changes the
parser result — the unwrapped parse strips the trailing marker and decodes
`5`, while the wrapped parse retains it and fails to decode. -/
theorem parse_fence_wrap_counterexample :
    parse_llm_pizza_response json_loads (wrapFence ("json".toList) ("5 ```".toList)) ≠
      parse_llm_pizza_response json_loads ("5 ```".toList) := by
  intro h
  have h4 := congrArg (fun r => r.2.2.2) h
  have hne : (parse_llm_pizza_response json_loads
        (wrapFence ("json".toList) ("5 ```".toList))).2.2.2 ≠
      (parse_llm_pizza_response json_loads ("5 ```".toList)).2.2.2 := by decide
  exact hne h4

/-- Witness for the amended C8 at a concrete unfenced text and the json
language tag. -/
theorem parse_fence_wrap_spec_witness :
    parse_llm_pizza_response json_loads (wrapFence ("json".toList) ("5".toList)) =
      parse_llm_pizza_response json_loads ("5".toList) :=
  parse_fence_wrap_spec json_loads ("json".toList) ("5".toList) (Or.inr rfl)
    (by decide) (by decide)

/-- Witness for C7 exercising the extractor clause at a failing collaborator. -/
theorem turn_frame_spec_witness :
    (⟨[], [], [], [], [], [("LLM call failed: x".toList)]⟩ : PizzaState).messages =
      (⟨[], [], [], [], [], []⟩ : PizzaState).messages :=
  ((turn_frame_spec (fun _ => Except.error ("x".toList))
      (⟨[], [], [], [], [], []⟩ : PizzaState)).1
    (⟨[], [], [], [], [], [("LLM call failed: x".toList)]⟩ : PizzaState) (by rfl)).1

end PizzaSpec
